import Mathlib

/-!
Verification of the JSON:API validation library (package jsonapi).

This file shallowly embeds the rule-composition and validation layer of the
library: the error translator (errors.go), the HTTP-method/index context
guards (rulemethod.go), the query-parameter rule sets (sort, page size,
legality of parameter names), the relationship rule set with its explicit
null-data handling (miscrules.go), the resource-object (Datum) validator
(datumruleset.go), the Datum JSON codec (body.go), and the Content-Type
validation of the header rule set (headerruleset.go).

Host-language JSON values are modelled by an inductive `Json` type whose
objects are association lists with distinct keys (decoded host maps).
The generic external validation engine (proto.zip/studio/validate) and the
standard-library JSON / MIME parsers are collaborators outside this
repository; where their behaviour is needed it is modelled from the
specification (casting, required/optional keys, unknown-key rejection,
full error collection) or abstracted into an explicit function parameter
(JSON-string parsing, media-type parsing), and noted at each definition.
-/

namespace JsonApiSpec

/-- JSON values as decoded by the host JSON codec. Objects are ordered
association lists; decoded host maps always have distinct keys. -/
inductive Json where
  | null : Json
  | bool (b : Bool) : Json
  | num (n : Int) : Json
  | str (s : String) : Json
  | arr (elems : List Json) : Json
  | obj (members : List (String × Json)) : Json
deriving Repr

/-- First-match association-list lookup, the model of host map indexing. -/
def assocGet {α : Type} (ms : List (String × α)) (k : String) : Option α :=
  match ms with
  | [] => none
  | (k0, v) :: rest => if k0 = k then some v else assocGet rest k

/-- Members of a JSON object, empty for any other JSON value. -/
def objMembersOf (j : Json) : List (String × Json) :=
  match j with
  | .obj ms => ms
  | _ => []

/-- Lookup of a member of a JSON object. -/
def objGet (j : Json) (k : String) : Option Json :=
  assocGet (objMembersOf j) k

/-- Host map assignment: replace the value of an existing key, append a
fresh key. -/
def assocInsert {α : Type} (ms : List (String × α)) (k : String) (v : α) :
    List (String × α) :=
  if ms.any (fun kv => kv.1 = k) then
    ms.map (fun kv => if kv.1 = k then (k, v) else kv)
  else ms ++ [(k, v)]

/-- Splitting a character list on commas (the model of the host
strings.Split with a comma separator; computable by structural
recursion). -/
def splitOnComma (cs : List Char) : List (List Char) :=
  match cs with
  | [] => [[]]
  | c :: rest =>
    match splitOnComma rest with
    | first :: others =>
      if c = ',' then [] :: first :: others
      else (c :: first) :: others
    | [] => [[c]]

/-- Splitting a string on commas. -/
def splitCommaStr (s : String) : List String :=
  (splitOnComma s.data).map (fun cs => String.mk cs)

/-- Decimal digit value of a character. -/
def digitVal (c : Char) : Option Nat :=
  if '0' ≤ c ∧ c ≤ '9' then some (c.toNat - ('0').toNat) else none

/-- Parsing a list of characters as a decimal natural number. -/
def parseNatChars (cs : List Char) (acc : Nat) : Option Nat :=
  match cs with
  | [] => some acc
  | c :: rest =>
    match digitVal c with
    | some d => parseNatChars rest (acc * 10 + d)
    | none => none

/-- Parsing a string as a decimal integer with an optional sign, the model
of the host integer parse used by the engine's string-to-int cast;
computable by structural recursion. -/
def parseIntString (s : String) : Option Int :=
  match s.data with
  | [] => none
  | '-' :: rest =>
    match rest with
    | [] => none
    | _ => (parseNatChars rest 0).map (fun n => -(n : Int))
  | '+' :: rest =>
    match rest with
    | [] => none
    | _ => (parseNatChars rest 0).map (fun n => (n : Int))
  | cs => (parseNatChars cs 0).map (fun n => (n : Int))

/-- Whether a string starts with the at sign. -/
def startsWithAt (k : String) : Bool :=
  match k.data with
  | c :: _ => c = '@'
  | [] => false

/-- Whitespace trimming on both ends (the model of the host TrimSpace). -/
def trimStr (s : String) : String :=
  String.mk (((s.data.dropWhile Char.isWhitespace).reverse.dropWhile
    Char.isWhitespace).reverse)

/-- Error codes of the validation engine as used by this library
(errors.CodeEncoding, CodeType, CodeRequired, CodePattern, CodeUnexpected,
CodeForbidden, and the bounds codes of WithMin/WithMax; `panicked` marks a
spot where the host code would panic). -/
inductive ErrCode where
  | encoding
  | typeErr
  | required
  | pattern
  | unexpected
  | forbidden
  | bounds
  | panicked
deriving DecidableEq, Repr

/-- A single generic validation failure: engine error code plus message. -/
structure RuleErr where
  code : ErrCode
  msg : String
deriving DecidableEq, Repr

/-- External collaborators that this layer calls through: the host JSON
parser used for JSON-encoded string inputs (modelled as an abstract
function, `none` meaning a parse failure). `fuel` bounds the
parse-then-recurse chain of the resource-linkage cast, which terminates in
the host because each parse strictly shrinks the input. -/
structure Env where
  parse : String → Option Json
  fuel : Nat

/-! ## Error translator (errors.go) -/

/-- The type of JSON:API error source (pointer, parameter, or header). -/
inductive ErrorSourceKind where
  | pointer
  | parameter
  | header
deriving DecidableEq, Repr

/-- The data reachable through the errors.ValidationError interface:
`path` is Path() (default serialization), `pathPointer` is
PathAs(JSONPointerSerializer). -/
structure ValidationErrorV where
  code : String
  title : String
  detail : String
  path : String
  pathPointer : String
  docsURI : String
  traceURI : String
  meta : List (String × Json)

/-- Links of a JSON:API error object (about and type). -/
structure ErrorLinksV where
  about : String
  type : String
deriving DecidableEq, Repr

/-- Source of a JSON:API error object (pointer, parameter, header). -/
structure SourceV where
  pointer : String
  parameter : String
  header : String
deriving DecidableEq, Repr

/-- A JSON:API error object as built by the error translator. -/
structure ErrorV where
  status : String
  code : String
  title : String
  detail : String
  links : Option ErrorLinksV
  source : Option SourceV
  meta : Option (List (String × Json))

/-- queryParamName (errors.go): reduce a query[name]-shaped path to the
bare parameter name; a leading slash is stripped first. -/
def queryParamName (path : String) : String :=
  let p := if path.startsWith "/" then path.drop 1 else path
  let pfx := "query["
  if p.startsWith pfx && p.endsWith "]" && decide (pfx.length + 1 < p.length) then
    (p.drop pfx.length).dropRight 1
  else p

/-- ErrorFromValidationError (errors.go): build a JSON:API error from a
generic validation failure; kind selects the source field. -/
def ErrorFromValidationError (ve : ValidationErrorV) (kind : ErrorSourceKind) :
    ErrorV :=
  let status := if kind = ErrorSourceKind.parameter then "400" else "422"
  let links :=
    if ve.docsURI ≠ "" ∨ ve.traceURI ≠ "" then
      some (ErrorLinksV.mk ve.docsURI ve.traceURI)
    else none
  let meta := if ve.meta.length > 0 then some ve.meta else none
  let path :=
    match kind with
    | .pointer => ve.pathPointer
    | _ => ve.path
  let source :=
    if path = "" then none
    else some (
      match kind with
      | .pointer => SourceV.mk path "" ""
      | .parameter => SourceV.mk "" (queryParamName path) ""
      | .header =>
          SourceV.mk "" "" (if path.startsWith "/" then path.drop 1 else path))
  ErrorV.mk status ve.code ve.title ve.detail links source meta

/-! ## Request-context guards (rulemethod.go) -/

/-- The ambient request context: HTTP method and resource id, both read
from the call context and empty when unset. -/
structure RequestContext where
  method : String
  resourceId : String
deriving DecidableEq, Repr

/-- httpMethodRule.Evaluate (rulemethod.go): error unless the context
method is one of the allowed methods. (The accompanying source comment
promises nil when no method is set in the context; the loop below, a
faithful translation, does not implement that.) -/
def httpMethodRuleEvaluate (methods : List String) (ctx : RequestContext) :
    Option RuleErr :=
  if methods.contains ctx.method then none
  else some (RuleErr.mk ErrCode.pattern
    ("HTTP method must be one of [" ++ String.intercalate " " methods ++ "]"))

/-- IndexRule (rulemethod.go): error when both a method and a resource id
are present in the context (a non-index request). -/
def indexRuleEvaluate (ctx : RequestContext) : Option RuleErr :=
  if ctx.method ≠ "" ∧ ctx.resourceId ≠ "" then
    some (RuleErr.mk ErrCode.forbidden "Value is only allowed on index requests")
  else none

/-! ## Query-parameter rule sets (querystring layer) -/

/-- A parsed sort entry: field name and direction. -/
structure SortParam where
  field : String
  descending : Bool
deriving DecidableEq, Repr

/-- stringQueryValueRuleSet composed with the queryParamAdapter: the single
raw value of a query parameter (the adapter wraps the single string coming
from the query rule set, and the slice rule set caps the length at one, so
the composition always sees exactly one string). -/
def sortRuleSetApply (ctx : RequestContext) (s : String) :
    Except (List RuleErr) (List SortParam) :=
  if ctx.method ≠ "" ∧ (ctx.resourceId ≠ "" ∨ (ctx.method ≠ "GET" ∧ ctx.method ≠ "HEAD")) then
    Except.error [RuleErr.mk ErrCode.forbidden "Sort is only allowed on index GET requests"]
  else
    let itms := splitOnComma s.data
    Except.ok (itms.map (fun itm =>
      match itm with
      | [] => SortParam.mk "" false
      | c :: rest =>
        if c = '-' then SortParam.mk (String.mk rest) true
        else SortParam.mk (String.mk itm) false))

/-- The item rule set of pageSizeRuleSet: rules.Int().WithMin(1).WithMax(100)
applied to a raw query value. The cast from string to integer is engine
behaviour (non-strict rules.Int() coerces numeric strings), modelled by
parseIntString. -/
def pageSizeItemCheck (s : String) : Except RuleErr Int :=
  match parseIntString s with
  | none => Except.error (RuleErr.mk ErrCode.typeErr "value must be an integer")
  | some n =>
    if n < 1 then Except.error (RuleErr.mk ErrCode.bounds "value must be at least 1")
    else if 100 < n then Except.error (RuleErr.mk ErrCode.bounds "value must be at most 100")
    else Except.ok n

/-- pageSizeRuleSet composed with the queryParamAdapter: the integer item
check together with the HTTPMethodRule("GET","HEAD") and IndexRule guards;
failures are collected in full, never short-circuited. -/
def pageSizeRuleSetApply (ctx : RequestContext) (s : String) :
    Except (List RuleErr) (List Int) :=
  let ruleErrs := (httpMethodRuleEvaluate ["GET", "HEAD"] ctx).toList ++
    (indexRuleEvaluate ctx).toList
  match pageSizeItemCheck s with
  | Except.error e => Except.error ([e] ++ ruleErrs)
  | Except.ok n => if ruleErrs.isEmpty then Except.ok [n] else Except.error ruleErrs

/-- Standard JSON:API query parameter names that are all-lowercase
(reserved by the spec but registered by this library). -/
def jsonapiStandardLowercaseParams : List String := ["sort", "include"]

/-- Whether a character is a lowercase letter between a and z. -/
def isLowerAZ (c : Char) : Bool := ('a' ≤ c) && (c ≤ 'z')

/-- isLegalQueryParamKey: legal when the name contains a character outside
a-z, or is one of the registered standard lowercase names. -/
def isLegalQueryParamKey (key : String) : Bool :=
  if key.data.any (fun c => !(isLowerAZ c)) then true
  else jsonapiStandardLowercaseParams.contains key

/-- Whether a character is a letter or digit (the character class of the
extension-key pattern). -/
def isAlnum (c : Char) : Bool :=
  (('a' ≤ c) && (c ≤ 'z')) || (('A' ≤ c) && (c ≤ 'Z')) || (('0' ≤ c) && (c ≤ '9'))

/-- Tail of the extension-key match after at least one leading alphanumeric
character: more alphanumerics, then a colon followed by one more (non
newline) character. -/
def extKeyMatchesTail (cs : List Char) : Bool :=
  match cs with
  | [] => false
  | c :: rest =>
    if c = ':' then
      match rest with
      | c2 :: _ => c2 ≠ '\n'
      | [] => false
    else if isAlnum c then extKeyMatchesTail rest
    else false

/-- extKeyRule: the pattern of extension member names, an unanchored-end
match of one or more alphanumerics, a colon, and at least one further
character. -/
def extKeyMatches (k : String) : Bool :=
  match k.data with
  | [] => false
  | c :: rest => isAlnum c && extKeyMatchesTail rest

/-- Full-string match of PREFIX then one or more characters none of which
is a closing bracket, then a closing bracket (the shape of the fields and
filter family patterns). -/
def familyKeyMatches (pfx : String) (k : String) : Bool :=
  if pfx.data.isPrefixOf k.data then
    match (k.data.drop pfx.data.length).reverse with
    | [] => false
    | last :: revInit =>
      (last = ']') && !(revInit.isEmpty) && revInit.all (fun c => c ≠ ']')
  else false

/-- fieldKeyRule: full-string match of fields[NAME] where NAME is one or
more characters none of which is a closing bracket. -/
def fieldKeyMatches (k : String) : Bool :=
  familyKeyMatches "fields[" k

/-- filterKeyRule: full-string match of filter[NAME], same shape as
fieldKeyMatches. -/
def filterKeyMatches (k : String) : Bool :=
  familyKeyMatches "filter[" k

/-- stringQueryValueRuleSet (rules.Slice of strings capped at one value)
followed by taking the first value; on an empty value list the host code
indexes out of range, marked with the panicked code. -/
def stringQueryValue (vals : List String) : Except (List RuleErr) String :=
  match vals with
  | [s] => Except.ok s
  | [] => Except.error [RuleErr.mk ErrCode.panicked "index out of range"]
  | _ => Except.error [RuleErr.mk ErrCode.bounds "too many values"]

/-- fieldsRuleSet cast: forbidden on DELETE, otherwise the single value is
split on commas into a field list. -/
def fieldsRuleSetApply (ctx : RequestContext) (vals : List String) :
    Except (List RuleErr) (List String) :=
  if ctx.method = "DELETE" then
    Except.error [RuleErr.mk ErrCode.forbidden "Fields are not allowed on DELETE requests"]
  else
    match stringQueryValue vals with
    | Except.error es => Except.error es
    | Except.ok s => Except.ok (splitCommaStr s)

/-- filterRuleSet: a string slice guarded by HTTPMethodRule("GET","HEAD")
and IndexRule. -/
def filterRuleSetApply (ctx : RequestContext) (vals : List String) :
    Except (List RuleErr) (List String) :=
  let ruleErrs := (httpMethodRuleEvaluate ["GET", "HEAD"] ctx).toList ++
    (indexRuleEvaluate ctx).toList
  if ruleErrs.isEmpty then Except.ok vals else Except.error ruleErrs

/-- jsonAPIQueryRule, contribution of one query key: fields[*] and
filter[*] values are validated by their family rule sets, extension keys
are skipped, and any other key that is not a legal query parameter name is
rejected as reserved. -/
def jsonAPIQueryKeyErrors (ctx : RequestContext) (key : String)
    (vals : List String) : List RuleErr :=
  if fieldKeyMatches key then
    match fieldsRuleSetApply ctx vals with
    | Except.error es => es
    | Except.ok _ => []
  else if filterKeyMatches key then
    match filterRuleSetApply ctx vals with
    | Except.error es => es
    | Except.ok _ => []
  else if extKeyMatches key then []
  else if !(isLegalQueryParamKey key) then
    [RuleErr.mk ErrCode.unexpected "query parameter is reserved (all lowercase) for future JSON:API use"]
  else []

/-- jsonAPIQueryRule over a whole decoded query: the per-key contributions
joined (host map iteration modelled in list order). -/
def jsonAPIQueryRule (ctx : RequestContext)
    (values : List (String × List String)) : List RuleErr :=
  values.foldr (fun kv acc => jsonAPIQueryKeyErrors ctx kv.1 kv.2 ++ acc) []

/-! ## Links, resource linkage and relationships (links.go, linksruleset.go,
miscrules.go) -/

/-- A link value: a bare string (StringLink), a full link object
(FullLink), or an explicit null (NilLink). -/
inductive LinkV where
  | strLink (s : String) : LinkV
  | fullLink (href : String) (meta : List (String × Json))
      (rel describedby title type hreflang : String) : LinkV
  | nilLink : LinkV
deriving Repr

/-- A resource identifier object (ResourceIdentifierLinkage). -/
structure ResourceIdentifierV where
  type : String
  id : String
  lid : String
  meta : List (String × Json)
deriving Repr

/-- Resource linkage, the polymorphic value of a relationship's data:
explicit null, a single identifier, or a collection of identifiers. -/
inductive LinkageV where
  | nilLinkage : LinkageV
  | identifier (idf : ResourceIdentifierV) : LinkageV
  | collection (idfs : List ResourceIdentifierV) : LinkageV
deriving Repr

/-- The coercing string cast of the engine (non-strict rules.String()),
modelled from the spec: strings pass, numbers and booleans are cast,
anything else is a type error. -/
def stringCast (v : Json) : Except RuleErr String :=
  match v with
  | .str s => Except.ok s
  | .num n => Except.ok (toString n)
  | .bool b => Except.ok (if b then "true" else "false")
  | _ => Except.error (RuleErr.mk ErrCode.typeErr "expected a string")

/-- The value check of a string-keyed any map with unknown keys allowed
(rules.StringMap(any).WithUnknown()): the value must be an object. -/
def anyMapApply (v : Json) : Except RuleErr (List (String × Json)) :=
  match v with
  | .obj mm => Except.ok mm
  | _ => Except.error (RuleErr.mk ErrCode.typeErr "expected an object")

/-- Decoding a full link object from members (unknown members are ignored
by the host decoder; a string-typed field rejects non-string values, with
null leaving the zero value). -/
def fullLinkStrField (ms : List (String × Json)) (k : String) :
    Except RuleErr String :=
  match assocGet ms k with
  | none => Except.ok ""
  | some (.str s) => Except.ok s
  | some .null => Except.ok ""
  | some _ => Except.error (RuleErr.mk ErrCode.encoding "Invalid link format")

/-- Decoding the meta member of a full link object. -/
def fullLinkMetaField (ms : List (String × Json)) :
    Except RuleErr (List (String × Json)) :=
  match assocGet ms "meta" with
  | none => Except.ok []
  | some (.obj mm) => Except.ok mm
  | some .null => Except.ok []
  | some _ => Except.error (RuleErr.mk ErrCode.encoding "Invalid link format")

/-- FullLink decoding from an object (the host JSON decode used by
linkCast and by Links.UnmarshalJSON). -/
def fullLinkFromObj (ms : List (String × Json)) : Except RuleErr LinkV := do
  let href ← fullLinkStrField ms "href"
  let meta ← fullLinkMetaField ms
  let rel ← fullLinkStrField ms "rel"
  let describedby ← fullLinkStrField ms "describedby"
  let title ← fullLinkStrField ms "title"
  let titleV ← fullLinkStrField ms "type"
  let hreflang ← fullLinkStrField ms "hreflang"
  Except.ok (LinkV.fullLink href meta rel describedby title titleV hreflang)

/-- linkCast (linksruleset.go): null becomes NilLink, a string becomes
StringLink, an object is decoded as FullLink, anything else errors. -/
def linkCast (v : Json) : Except RuleErr LinkV :=
  match v with
  | .null => Except.ok LinkV.nilLink
  | .str s => Except.ok (LinkV.strLink s)
  | .obj ms => fullLinkFromObj ms
  | _ => Except.error (RuleErr.mk ErrCode.encoding "Link must be a string, object, or null")

/-- LinksRuleSet: a string-keyed map whose every value is validated by
linkCast (dynamic key), failures collected in full. -/
def linksRuleSetApply (v : Json) :
    Except (List RuleErr) (List (String × LinkV)) :=
  match v with
  | .obj ms =>
    let res := ms.map (fun kv => (kv.1, linkCast kv.2))
    let errs := res.foldr (fun kv acc =>
      match kv.2 with
      | Except.error e => e :: acc
      | Except.ok _ => acc) []
    if errs.isEmpty then
      Except.ok (res.filterMap (fun kv =>
        match kv.2 with
        | Except.ok l => some (kv.1, l)
        | Except.error _ => none))
    else Except.error errs
  | _ => Except.error [RuleErr.mk ErrCode.typeErr "expected an object"]

/-- ResourceIdentifierLinkageRuleSet: a struct with members type, id, lid
(strings) and meta (any map); unknown members are rejected and failures
collected in full. The spec marks type as required. -/
def resourceIdentifierApply (v : Json) :
    Except (List RuleErr) ResourceIdentifierV :=
  match v with
  | .obj ms =>
    let step := fun (st : ResourceIdentifierV × List RuleErr × Bool)
        (kv : String × Json) =>
      let idf := st.1
      let errs := st.2.1
      let sawType := st.2.2
      if kv.1 = "type" then
        match stringCast kv.2 with
        | Except.ok s => ({ idf with type := s }, errs, true)
        | Except.error e => (idf, errs ++ [e], true)
      else if kv.1 = "id" then
        match stringCast kv.2 with
        | Except.ok s => ({ idf with id := s }, errs, sawType)
        | Except.error e => (idf, errs ++ [e], sawType)
      else if kv.1 = "lid" then
        match stringCast kv.2 with
        | Except.ok s => ({ idf with lid := s }, errs, sawType)
        | Except.error e => (idf, errs ++ [e], sawType)
      else if kv.1 = "meta" then
        match anyMapApply kv.2 with
        | Except.ok mm => ({ idf with meta := mm }, errs, sawType)
        | Except.error e => (idf, errs ++ [e], sawType)
      else (idf, errs ++ [RuleErr.mk ErrCode.unexpected "unexpected member"], sawType)
    let fin := ms.foldl step (ResourceIdentifierV.mk "" "" "" [], [], false)
    let errs := if fin.2.2 then fin.2.1
      else fin.2.1 ++ [RuleErr.mk ErrCode.required "type is required"]
    if errs.isEmpty then Except.ok fin.1 else Except.error errs
  | _ => Except.error [RuleErr.mk ErrCode.typeErr "expected an object"]

/-- resourceLinkageCast (miscrules.go): nil casts to the nil linkage, a
JSON-encoded string is parsed and the cast recurses, an array becomes a
collection of identifiers (any item failure fails the whole cast), and
anything else is cast as a single identifier. -/
def resourceLinkageCast (env : Env) : Nat → Json → Except (List RuleErr) LinkageV
  | _, .null => Except.ok LinkageV.nilLinkage
  | 0, .str _ => Except.error [RuleErr.mk ErrCode.encoding "Invalid JSON"]
  | fuel + 1, .str s =>
    match env.parse s with
    | none => Except.error [RuleErr.mk ErrCode.encoding "Invalid JSON"]
    | some v2 => resourceLinkageCast env fuel v2
  | _, .arr elems =>
    let res := elems.map resourceIdentifierApply
    let errs := res.foldr (fun r acc =>
      match r with
      | Except.error es => es ++ acc
      | Except.ok _ => acc) []
    if errs.isEmpty then
      Except.ok (LinkageV.collection (res.filterMap (fun r =>
        match r with
        | Except.ok idf => some idf
        | Except.error _ => none)))
    else Except.error errs
  | _, v =>
    match resourceIdentifierApply v with
    | Except.ok idf => Except.ok (LinkageV.identifier idf)
    | Except.error es => Except.error es

/-- relationshipDataRuleSet cast: nil becomes the nil linkage, anything
else goes through the resource-linkage cast. -/
def relationshipDataCast (env : Env) (v : Json) :
    Except (List RuleErr) LinkageV :=
  match v with
  | .null => Except.ok LinkageV.nilLinkage
  | _ => resourceLinkageCast env env.fuel v

/-- A validated relationship: links, optional data (absent when the data
member is wholly absent), and meta. -/
structure RelationshipV where
  links : List (String × LinkV)
  data : Option LinkageV
  meta : List (String × Json)
deriving Repr

/-- One member step of the struct validator composed inside the
relationship rule set: data, links and meta are validated, any other
member is rejected. -/
def relationshipStructStep (env : Env) (st : RelationshipV × List RuleErr)
    (kv : String × Json) : RelationshipV × List RuleErr :=
  let rel := st.1
  let errs := st.2
  if kv.1 = "data" then
    match relationshipDataCast env kv.2 with
    | Except.ok l => ({ rel with data := some l }, errs)
    | Except.error es => (rel, errs ++ es)
  else if kv.1 = "links" then
    match linksRuleSetApply kv.2 with
    | Except.ok ls => ({ rel with links := ls }, errs)
    | Except.error es => (rel, errs ++ es)
  else if kv.1 = "meta" then
    match anyMapApply kv.2 with
    | Except.ok mm => ({ rel with meta := mm }, errs)
    | Except.error e => (rel, errs ++ [e])
  else (rel, errs ++ [RuleErr.mk ErrCode.unexpected "unexpected member"])

/-- The struct validator composed inside the relationship rule set
(rules.Struct over Relationship with members data, links, meta): members
are validated in order, unknown members rejected, failures collected in
full. -/
def relationshipStructApply (env : Env) (ms : List (String × Json)) :
    Except (List RuleErr) RelationshipV :=
  let fin := ms.foldl (relationshipStructStep env) (RelationshipV.mk [] none [], [])
  if fin.2.isEmpty then Except.ok fin.1 else Except.error fin.2

/-- Whether a member map carries an explicitly null data member. -/
def hasNullData (input : List (String × Json)) : Bool :=
  match assocGet input "data" with
  | some .null => true
  | _ => false

/-- relationshipRuleSetImpl.Apply (miscrules.go): when the input map holds
an explicitly null data member, the member is deleted before delegating to
the struct validator; on success the nil linkage is substituted into the
result and the null member is restored in the input map. The first
component is the input map as left behind by the call (the host code
mutates the caller's map in place). -/
def relationshipRuleSetApply (env : Env) (input : List (String × Json)) :
    (List (String × Json)) × Except (List RuleErr) RelationshipV :=
  let hadNullData := hasNullData input
  let input1 := if hadNullData then input.filter (fun kv => kv.1 ≠ "data") else input
  match relationshipStructApply env input1 with
  | Except.ok rel =>
    if hadNullData then
      (assocInsert input1 "data" Json.null,
        Except.ok { rel with data := some LinkageV.nilLinkage })
    else (input1, Except.ok rel)
  | Except.error es => (input1, Except.error es)

/-! ## The Datum JSON codec (body.go), attributes instantiated at the
string-keyed any map the host tests also use, so attribute shapes range
over arbitrary JSON objects. An absent/null attributes map is `none` (a
host nil map, which serializes to null). -/

/-- A decoded (not validated) resource object (Datum). `fields` records
the attribute keys textually present in the source and drives sparse
serialization. -/
structure DatumV where
  id : String := ""
  lid : String := ""
  type : String := ""
  attributes : Option (List (String × Json)) := none
  links : List (String × LinkV) := []
  relationships : List (String × RelationshipV) := []
  meta : List (String × Json) := []
  extensionMembers : List (String × Json) := []
  atMembers : List (String × Json) := []
  fields : Option (List String) := none
deriving Repr

/-- One member step of Links.UnmarshalJSON (links.go): the member is first
tried as a StringLink (strings, and null which the host string decode
leaves empty), then as a FullLink (objects); anything else fails the whole
decode. -/
def linksUnmarshalStep (acc : Except String (List (String × LinkV)))
    (kv : String × Json) : Except String (List (String × LinkV)) :=
  match acc with
  | Except.error e => Except.error e
  | Except.ok ls =>
    match kv.2 with
    | .str s => Except.ok (ls ++ [(kv.1, LinkV.strLink s)])
    | .null => Except.ok (ls ++ [(kv.1, LinkV.strLink "")])
    | .obj lms =>
      match fullLinkFromObj lms with
      | Except.ok l => Except.ok (ls ++ [(kv.1, l)])
      | Except.error _ => Except.error ("failed to unmarshal link for key " ++ kv.1)
    | _ => Except.error ("failed to unmarshal link for key " ++ kv.1)

/-- Links.UnmarshalJSON (links.go): decode every member of a links object
(a null links value leaves an empty map). -/
def linksUnmarshal (v : Json) : Except String (List (String × LinkV)) :=
  match v with
  | .null => Except.ok []
  | .obj ms => ms.foldl linksUnmarshalStep (Except.ok [])
  | _ => Except.error "cannot unmarshal into Links"

/-- Host JSON decode of one Relationship value: links and meta decode into
their fields, a data member must be null (the field is an interface the
host decoder cannot fill), unknown members are ignored. -/
def relationshipJsonDecode (v : Json) : Except String RelationshipV :=
  match v with
  | .null => Except.ok (RelationshipV.mk [] none [])
  | .obj ms =>
    let step := fun (acc : Except String RelationshipV) (kv : String × Json) =>
      match acc with
      | Except.error e => Except.error e
      | Except.ok rel =>
        if kv.1 = "links" then
          match linksUnmarshal kv.2 with
          | Except.ok ls => Except.ok { rel with links := ls }
          | Except.error e => Except.error e
        else if kv.1 = "data" then
          match kv.2 with
          | .null => Except.ok rel
          | _ => Except.error "cannot unmarshal into ResourceLinkage"
        else if kv.1 = "meta" then
          match kv.2 with
          | .obj mm => Except.ok { rel with meta := mm }
          | .null => Except.ok rel
          | _ => Except.error "cannot unmarshal into meta"
        else Except.ok rel
    ms.foldl step (Except.ok (RelationshipV.mk [] none []))
  | _ => Except.error "cannot unmarshal into Relationship"

/-- Host JSON decode of the relationships member. -/
def relationshipsJsonDecode (v : Json) :
    Except String (List (String × RelationshipV)) :=
  match v with
  | .null => Except.ok []
  | .obj ms =>
    let step := fun (acc : Except String (List (String × RelationshipV)))
        (kv : String × Json) =>
      match acc with
      | Except.error e => Except.error e
      | Except.ok rs =>
        match relationshipJsonDecode kv.2 with
        | Except.ok r => Except.ok (rs ++ [(kv.1, r)])
        | Except.error e => Except.error e
    ms.foldl step (Except.ok [])
  | _ => Except.error "cannot unmarshal into relationships"

/-- Whether a member name holds a colon at an index greater than zero (the
extension-member test of the codec). -/
def colonAfterStart (k : String) : Bool :=
  match k.data with
  | [] => false
  | c :: rest => (c ≠ ':') && rest.contains ':'

/-- One member step of Datum.UnmarshalJSON: the state is the datum under
construction together with the attribute keys recorded so far. -/
def datumUnmarshalStep (st : DatumV × List String) (kv : String × Json) :
    Except String (DatumV × List String) :=
  let d := st.1
  let keys := st.2
  if kv.1 = "id" then
    match kv.2 with
    | .str s => Except.ok ({ d with id := s }, keys)
    | .null => Except.ok st
    | _ => Except.error "cannot unmarshal into id"
  else if kv.1 = "lid" then
    match kv.2 with
    | .str s => Except.ok ({ d with lid := s }, keys)
    | .null => Except.ok st
    | _ => Except.error "cannot unmarshal into lid"
  else if kv.1 = "type" then
    match kv.2 with
    | .str s => Except.ok ({ d with type := s }, keys)
    | .null => Except.ok st
    | _ => Except.error "cannot unmarshal into type"
  else if kv.1 = "attributes" then
    match kv.2 with
    | .obj ms => Except.ok ({ d with attributes := some ms }, keys ++ ms.map Prod.fst)
    | .null => Except.ok st
    | _ => Except.error "cannot unmarshal into attributes"
  else if kv.1 = "links" then
    match linksUnmarshal kv.2 with
    | Except.ok ls => Except.ok ({ d with links := ls }, keys)
    | Except.error e => Except.error e
  else if kv.1 = "relationships" then
    match relationshipsJsonDecode kv.2 with
    | Except.ok rs => Except.ok ({ d with relationships := rs }, keys)
    | Except.error e => Except.error e
  else if kv.1 = "meta" then
    match kv.2 with
    | .obj mm => Except.ok ({ d with meta := mm }, keys)
    | .null => Except.ok st
    | _ => Except.error "cannot unmarshal into meta"
  else if startsWithAt kv.1 then
    Except.ok ({ d with atMembers := assocInsert d.atMembers kv.1 kv.2 }, keys)
  else if colonAfterStart kv.1 then
    Except.ok ({ d with extensionMembers := assocInsert d.extensionMembers kv.1 kv.2 }, keys)
  else Except.ok st

/-- The member loop of Datum.UnmarshalJSON (host map iteration modelled in
list order; decoded host maps have distinct keys). -/
def datumUnmarshalGo (st : DatumV × List String) :
    List (String × Json) → Except String (DatumV × List String)
  | [] => Except.ok st
  | kv :: rest =>
    match datumUnmarshalStep st kv with
    | Except.ok st2 => datumUnmarshalGo st2 rest
    | Except.error e => Except.error e

/-- Datum.UnmarshalJSON (body.go): decode the members, then set the
recorded attribute-key field list. -/
def datumUnmarshalJSON (x : Json) : Except String DatumV :=
  match x with
  | .obj ms =>
    match datumUnmarshalGo (DatumV.mk "" "" "" none [] [] [] [] [] none, []) ms with
    | Except.ok st => Except.ok { st.1 with fields := some st.2 }
    | Except.error e => Except.error e
  | _ => Except.error "cannot unmarshal into Datum"

/-- Serialization of a link value. -/
def renderLink (l : LinkV) : Json :=
  match l with
  | .strLink s => Json.str s
  | .nilLink => Json.null
  | .fullLink href meta rel describedby title ty hreflang =>
    Json.obj ([("href", Json.str href)]
      ++ (if meta.length > 0 then [("meta", Json.obj meta)] else [])
      ++ (if rel ≠ "" then [("rel", Json.str rel)] else [])
      ++ (if describedby ≠ "" then [("describedby", Json.str describedby)] else [])
      ++ (if title ≠ "" then [("title", Json.str title)] else [])
      ++ (if ty ≠ "" then [("type", Json.str ty)] else [])
      ++ (if hreflang ≠ "" then [("hreflang", Json.str hreflang)] else []))

/-- Serialization of a links map. -/
def renderLinks (ls : List (String × LinkV)) : Json :=
  Json.obj (ls.map (fun kv => (kv.1, renderLink kv.2)))

/-- Serialization of a resource identifier (type always present, id, lid
and meta omitted when empty). -/
def renderIdentifier (idf : ResourceIdentifierV) : Json :=
  Json.obj ([("type", Json.str idf.type)]
    ++ (if idf.id ≠ "" then [("id", Json.str idf.id)] else [])
    ++ (if idf.lid ≠ "" then [("lid", Json.str idf.lid)] else [])
    ++ (if idf.meta.length > 0 then [("meta", Json.obj idf.meta)] else []))

/-- Serialization of a resource linkage; the nil linkage serializes to the
JSON null literal. -/
def renderLinkage (l : LinkageV) : Json :=
  match l with
  | .nilLinkage => Json.null
  | .identifier idf => renderIdentifier idf
  | .collection idfs => Json.arr (idfs.map renderIdentifier)

/-- Serialization of one relationship (links, data and meta omitted when
empty or absent). -/
def renderRelationship (r : RelationshipV) : Json :=
  Json.obj ((if r.links.length > 0 then [("links", renderLinks r.links)] else [])
    ++ (match r.data with
        | some l => [("data", renderLinkage l)]
        | none => [])
    ++ (if r.meta.length > 0 then [("meta", Json.obj r.meta)] else []))

/-- Serialization of a relationships map. -/
def renderRelationships (rs : List (String × RelationshipV)) : Json :=
  Json.obj (rs.map (fun kv => (kv.1, renderRelationship kv.2)))

/-- Datum.MarshalJSON (body.go): id and type always, lid/links/meta when
non-empty; with no field list the attributes (a nil map serializes to
null) and all relationships are emitted, with a field list only the
attribute keys and relationship names it contains; extension members and
at-members are spliced back as top-level siblings. -/
def datumMarshalJSON (d : DatumV) : Json :=
  let r : List (String × Json) := []
  let r := assocInsert r "id" (Json.str d.id)
  let r := assocInsert r "type" (Json.str d.type)
  let r := if d.lid != "" then assocInsert r "lid" (Json.str d.lid) else r
  let r := if d.links.length != 0 then assocInsert r "links" (renderLinks d.links) else r
  let r := if d.meta.length != 0 then assocInsert r "meta" (Json.obj d.meta) else r
  let r :=
    match d.fields with
    | none =>
      let r := assocInsert r "attributes"
        (match d.attributes with
         | some ms => Json.obj ms
         | none => Json.null)
      if d.relationships.length != 0 then
        assocInsert r "relationships" (renderRelationships d.relationships)
      else r
    | some fl =>
      let attrMap := (d.attributes.getD []).filter (fun kv => fl.contains kv.1)
      let r := if attrMap.length != 0 then assocInsert r "attributes" (Json.obj attrMap) else r
      if d.relationships.length != 0 then
        let relMap := d.relationships.filter (fun kv => fl.contains kv.1)
        if relMap.length != 0 then
          assocInsert r "relationships" (renderRelationships relMap)
        else r
      else r
  let r := d.extensionMembers.foldl (fun acc kv => assocInsert acc kv.1 kv.2) r
  let r := d.atMembers.foldl (fun acc kv => assocInsert acc kv.1 kv.2) r
  Json.obj r

/-! ## The resource-object (Datum) validator (datumruleset.go) -/

/-- The configuration of a DatumRuleSet: the expected type name, the
registered relationship names and whether unknown relationships are
allowed, and the registered meta keys. -/
structure DatumCfg where
  typeName : String
  relKnown : List String
  relUnknown : Bool
  metaKeys : List String

/-- A validated resource object. -/
structure DatumValidated where
  id : String := ""
  lid : String := ""
  type : String := ""
  attributes : Json := Json.null
  links : List (String × LinkV) := []
  relationships : List (String × RelationshipV) := []
  meta : List (String × Json) := []
  extensionMembers : List (String × Json) := []
  atMembers : List (String × Json) := []

/-- The relationships member validator: each registered (or, when unknown
relationships are allowed, any) name is validated by the relationship rule
set; other names are rejected; failures collected in full. -/
def relationshipsMapApply (env : Env) (cfg : DatumCfg) (v : Json) :
    Except (List RuleErr) (List (String × RelationshipV)) :=
  match v with
  | .obj ms =>
    let step := fun (st : List (String × RelationshipV) × List RuleErr)
        (kv : String × Json) =>
      if cfg.relUnknown || cfg.relKnown.contains kv.1 then
        match kv.2 with
        | .obj rms =>
          match (relationshipRuleSetApply env rms).2 with
          | Except.ok rel => (st.1 ++ [(kv.1, rel)], st.2)
          | Except.error es => (st.1, st.2 ++ es)
        | _ => (st.1, st.2 ++ [RuleErr.mk ErrCode.typeErr "expected an object"])
      else (st.1, st.2 ++ [RuleErr.mk ErrCode.unexpected "unexpected relationship"])
    let fin := ms.foldl step ([], [])
    if fin.2.isEmpty then Except.ok fin.1 else Except.error fin.2
  | _ => Except.error [RuleErr.mk ErrCode.typeErr "expected an object"]

/-- The meta member validator of the Datum rule set (registered keys only,
values unconstrained). -/
def datumMetaApply (cfg : DatumCfg) (v : Json) :
    Except (List RuleErr) (List (String × Json)) :=
  match v with
  | .obj mm =>
    let errs := mm.foldr (fun kv acc =>
      if cfg.metaKeys.contains kv.1 then acc
      else RuleErr.mk ErrCode.unexpected "unexpected meta key" :: acc) []
    if errs.isEmpty then Except.ok mm else Except.error errs
  | _ => Except.error [RuleErr.mk ErrCode.typeErr "expected an object"]

/-- One member step of the composed Datum struct validator: the state is
the validated datum under construction plus the failures so far. -/
def datumValidateStep (env : Env) (cfg : DatumCfg)
    (attrsApply : Json → Except (List RuleErr) Json)
    (st : DatumValidated × List RuleErr) (kv : String × Json) :
    DatumValidated × List RuleErr :=
  let d := st.1
  let errs := st.2
  if kv.1 = "id" then
    match kv.2 with
    | .str s => ({ d with id := s }, errs)
    | _ => (d, errs ++ [RuleErr.mk ErrCode.typeErr "id must be a string"])
  else if kv.1 = "lid" then
    match stringCast kv.2 with
    | Except.ok s => ({ d with lid := s }, errs)
    | Except.error e => (d, errs ++ [e])
  else if kv.1 = "type" then
    match kv.2 with
    | .str s =>
      if s = cfg.typeName then ({ d with type := s }, errs)
      else (d, errs ++ [RuleErr.mk ErrCode.pattern "type does not match"])
    | _ => (d, errs ++ [RuleErr.mk ErrCode.typeErr "type must be a string"])
  else if kv.1 = "attributes" then
    match attrsApply kv.2 with
    | Except.ok a => ({ d with attributes := a }, errs)
    | Except.error es => (d, errs ++ es)
  else if kv.1 = "relationships" then
    match relationshipsMapApply env cfg kv.2 with
    | Except.ok rs => ({ d with relationships := rs }, errs)
    | Except.error es => (d, errs ++ es)
  else if kv.1 = "links" then
    match linksRuleSetApply kv.2 with
    | Except.ok ls => ({ d with links := ls }, errs)
    | Except.error es => (d, errs ++ es)
  else if kv.1 = "meta" then
    match datumMetaApply cfg kv.2 with
    | Except.ok mm => ({ d with meta := mm }, errs)
    | Except.error es => (d, errs ++ es)
  else if startsWithAt kv.1 then
    ({ d with atMembers := assocInsert d.atMembers kv.1 kv.2 }, errs)
  else if extKeyMatches kv.1 then
    ({ d with extensionMembers := assocInsert d.extensionMembers kv.1 kv.2 }, errs)
  else (d, errs ++ [RuleErr.mk ErrCode.unexpected "unknown member"])

/-- The composed Datum struct validator (id, lid, type, attributes,
relationships, links, meta, plus the at-member and extension-member
buckets); failures collected in full, unknown members rejected. -/
def datumValidate (env : Env) (cfg : DatumCfg)
    (attrsApply : Json → Except (List RuleErr) Json) (input : Json) :
    Except (List RuleErr) DatumValidated :=
  match input with
  | .obj ms =>
    let fin := ms.foldl (datumValidateStep env cfg attrsApply)
      (DatumValidated.mk "" "" "" Json.null [] [] [] [] [], [])
    if fin.2.isEmpty then Except.ok fin.1 else Except.error fin.2
  | _ => Except.error [RuleErr.mk ErrCode.typeErr "expected an object"]

/-- DatumRuleSet.Apply (datumruleset.go): run the composed validator and,
on success, unconditionally stamp the type to the configured name. -/
def datumRuleSetApply (env : Env) (cfg : DatumCfg)
    (attrsApply : Json → Except (List RuleErr) Json) (input : Json) :
    Except (List RuleErr) DatumValidated :=
  match datumValidate env cfg attrsApply input with
  | Except.ok d => Except.ok { d with type := cfg.typeName }
  | Except.error es => Except.error es

/-! ## Content-Type validation (headerruleset.go) -/

/-- The JSON:API media type. -/
def MediaTypeJSONAPI : String := "application/vnd.api+json"

/-- The configuration of a HeaderRuleSet as far as Content-Type validation
is concerned: requiredness and the optional ext/profile sub-validators
(functions from the raw parameter value to an optional failure). -/
structure HeaderCfg where
  contentRequired : Bool
  extRuleSet : Option (String → Option RuleErr)
  profileRuleSet : Option (String → Option RuleErr)

/-- getHeader (headerruleset.go): the first value of the named header,
trimmed; empty when the header is absent or empty. -/
def getHeader (headers : List (String × List String)) (name : String) : String :=
  match assocGet headers name with
  | some (v :: _) => trimStr v
  | _ => ""

/-- The ext-parameter sub-validation block of validateContentType. -/
def extParamCheck (cfg : HeaderCfg) (params : List (String × String)) :
    Option RuleErr :=
  match cfg.extRuleSet with
  | none => none
  | some f =>
    let v := (assocGet params "ext").getD ""
    if v ≠ "" then f v else none

/-- The profile-parameter sub-validation block of validateContentType. -/
def profileParamCheck (cfg : HeaderCfg) (params : List (String × String)) :
    Option RuleErr :=
  match cfg.profileRuleSet with
  | none => none
  | some f =>
    let v := (assocGet params "profile").getD ""
    if v ≠ "" then f v else none

/-- The checks of validateContentType that follow a successful media-type
parse: the media type must equal the JSON:API media type exactly and every
parameter must be ext or profile, whose values the configured
sub-validators may further check. -/
def contentTypeParsedCheck (cfg : HeaderCfg) (mediaType : String)
    (params : List (String × String)) : Option RuleErr :=
  if mediaType ≠ MediaTypeJSONAPI then
    some (RuleErr.mk ErrCode.pattern "wrong media type")
  else
    match params.find? (fun p => p.1 != "ext" && p.1 != "profile") with
    | some _ => some (RuleErr.mk ErrCode.unexpected "disallowed parameter")
    | none =>
      match extParamCheck cfg params with
      | some e => some e
      | none => profileParamCheck cfg params

/-- HeaderRuleSet.validateContentType (headerruleset.go): Content-Type
must parse as a media type (the host MIME parser is the abstract
parseMediaType argument), then satisfy the parsed checks. -/
def validateContentType (cfg : HeaderCfg)
    (parseMediaType : String → Option (String × List (String × String)))
    (headers : List (String × List String)) : Option RuleErr :=
  let raw := getHeader headers "Content-Type"
  if raw = "" then
    if cfg.contentRequired then
      some (RuleErr.mk ErrCode.required "Content-Type required")
    else none
  else
    match parseMediaType raw with
    | none => some (RuleErr.mk ErrCode.encoding "invalid Content-Type")
    | some (mediaType, params) => contentTypeParsedCheck cfg mediaType params

/-- An attributes validator that accepts any payload unchanged (the
simplest well-behaved caller-supplied typed validator). -/
def attrsAccept : Json → Except (List RuleErr) Json := fun v => Except.ok v

/-- A structured description of a source resource-object document with
every optional scalar member present: its rendering fixes the member
order, while the attribute, link, meta, at-member and extension-member
shapes stay arbitrary. -/
structure DatumSrc where
  id : String
  type : String
  lid : String
  attrs : List (String × Json)
  linkPairs : List (String × String)
  meta : List (String × Json)
  atMems : List (String × Json)
  extMems : List (String × Json)

/-- Rendering of a string-valued links member. -/
def renderSrcLinks (ls : List (String × String)) : Json :=
  Json.obj (ls.map (fun kv => (kv.1, Json.str kv.2)))

/-- The JSON document described by a DatumSrc. -/
def renderSrc (s : DatumSrc) : Json :=
  Json.obj ([("id", Json.str s.id), ("type", Json.str s.type),
    ("lid", Json.str s.lid), ("attributes", Json.obj s.attrs),
    ("links", renderSrcLinks s.linkPairs), ("meta", Json.obj s.meta)]
    ++ s.atMems ++ s.extMems)

/-! ## Theorems -/

/-- An empty association-list lookup means no entry carries the key. -/
theorem assocGet_none_forall {α : Type} (ms : List (String × α)) (k : String)
    (h : assocGet ms k = none) : ∀ kv ∈ ms, kv.1 ≠ k := by
  induction ms with
  | nil => intro kv hkv; cases hkv
  | cons kv0 rest ih =>
    intro kv hkv
    by_cases he : kv0.1 = k
    · exfalso
      have : assocGet (kv0 :: rest) k = some kv0.2 := by
        simp [assocGet, he]
      rw [h] at this
      cases this
    · rcases List.mem_cons.mp hkv with heq | hmem
      · subst heq; exact he
      · have hrest : assocGet rest k = none := by
          simpa [assocGet, he] using h
        exact ih hrest kv hmem

/-- The relationship struct fold never touches the data field when no
member is named data. -/
theorem relStructFold_data_eq (env : Env) (ms : List (String × Json))
    (st : RelationshipV × List RuleErr) (h : ∀ kv ∈ ms, kv.1 ≠ "data") :
    ((ms.foldl (relationshipStructStep env) st).1).data = st.1.data := by
  induction ms generalizing st with
  | nil => rfl
  | cons kv rest ih =>
    have hk : kv.1 ≠ "data" := h kv (List.mem_cons_self kv rest)
    have hrest : ∀ kv2 ∈ rest, kv2.1 ≠ "data" :=
      fun kv2 hm => h kv2 (List.mem_cons_of_mem kv hm)
    rw [List.foldl_cons, ih _ hrest]
    unfold relationshipStructStep
    rw [if_neg hk]
    split
    · split
      · rfl
      · rfl
    · split
      · split
        · rfl
        · rfl
      · rfl

/-- A successful relationship struct validation over members none of which
is named data leaves the data field unset. -/
theorem relationshipStructApply_ok_data_none (env : Env)
    (ms : List (String × Json)) (rel : RelationshipV)
    (hnone : ∀ kv ∈ ms, kv.1 ≠ "data")
    (h : relationshipStructApply env ms = Except.ok rel) : rel.data = none := by
  simp only [relationshipStructApply] at h
  split at h
  · have := (Except.ok.injEq _ _).mp h
    rw [← this]
    exact relStructFold_data_eq env ms (RelationshipV.mk [] none [], []) hnone
  · cases h

/-- C1 counterexample: a generic failure translated with the header source
kind yields a spec error whose status is not 400 (it is 422), refuting the
claim that the parameter and header kinds both map to 400. -/
theorem C1_counterexample :
    (ErrorFromValidationError
      (ValidationErrorV.mk "unexpected" "invalid header" "header value invalid"
        "/X-Request-Id" "/X-Request-Id" "" "" []) ErrorSourceKind.header).status ≠ "400" := by
  decide

/-- C1 (amended): the translated status is 422 for the pointer and header
source kinds and 400 for the parameter kind, for every validation
failure. -/
theorem C1_amended_status (ve : ValidationErrorV) :
    (ErrorFromValidationError ve ErrorSourceKind.pointer).status = "422" ∧
    (ErrorFromValidationError ve ErrorSourceKind.parameter).status = "400" ∧
    (ErrorFromValidationError ve ErrorSourceKind.header).status = "422" :=
  ⟨rfl, rfl, rfl⟩

/-- C2: with both the method and the resource id empty in the request
context, the HTTP-method guard used by page size, the cursor parameters
and filter is not a no-op: it reports a pattern error (its own
documentation promises nil), and the composed page-size validation of the
value 50 under the empty context fails with exactly that error; the index
guard alone is a no-op. -/
theorem C2_empty_context_not_noop :
    httpMethodRuleEvaluate ["GET", "HEAD"] (RequestContext.mk "" "") =
      some (RuleErr.mk ErrCode.pattern "HTTP method must be one of [GET HEAD]") ∧
    indexRuleEvaluate (RequestContext.mk "" "") = none ∧
    pageSizeRuleSetApply (RequestContext.mk "" "") "50" =
      Except.error [RuleErr.mk ErrCode.pattern "HTTP method must be one of [GET HEAD]"] :=
  ⟨rfl, rfl, rfl⟩

/-- C6: sort=abc,-xyz parses to ascending abc then descending xyz under
GET with no resource id, and is forbidden under POST or under GET with a
resource id. -/
theorem C6_sort_parse_and_forbidden :
    sortRuleSetApply (RequestContext.mk "GET" "") "abc,-xyz" =
      Except.ok [SortParam.mk "abc" false, SortParam.mk "xyz" true] ∧
    sortRuleSetApply (RequestContext.mk "POST" "") "abc,-xyz" =
      Except.error [RuleErr.mk ErrCode.forbidden "Sort is only allowed on index GET requests"] ∧
    sortRuleSetApply (RequestContext.mk "GET" "123") "abc,-xyz" =
      Except.error [RuleErr.mk ErrCode.forbidden "Sort is only allowed on index GET requests"] :=
  ⟨rfl, rfl, rfl⟩

/-- C5: a relationship whose data member is explicitly null validates to a
relationship carrying the nil linkage, while an absent data member leaves
the data field unset; the two results are distinct. -/
theorem C5_relationship_null_data (env : Env) (m : List (String × Json))
    (r : RelationshipV) :
    (assocGet m "data" = some Json.null →
      (relationshipRuleSetApply env m).2 = Except.ok r →
      r.data = some LinkageV.nilLinkage) ∧
    (assocGet m "data" = none →
      (relationshipRuleSetApply env m).2 = Except.ok r →
      r.data = none) ∧
    some LinkageV.nilLinkage ≠ (none : Option LinkageV) := by
  refine ⟨?_, ?_, by simp⟩
  · intro h1 h2
    have hnull : hasNullData m = true := by
      unfold hasNullData
      rw [h1]
    unfold relationshipRuleSetApply at h2
    rw [hnull] at h2
    simp only [if_true] at h2
    cases hv : relationshipStructApply env (m.filter (fun kv => kv.1 ≠ "data")) with
    | ok rel =>
      rw [hv] at h2
      simp only at h2
      have := (Except.ok.injEq _ _).mp h2
      rw [← this]
    | error es =>
      rw [hv] at h2
      simp at h2
  · intro h1 h2
    have hnull : hasNullData m = false := by
      unfold hasNullData
      rw [h1]
    unfold relationshipRuleSetApply at h2
    rw [hnull] at h2
    simp only [Bool.false_eq_true, if_false] at h2
    cases hv : relationshipStructApply env m with
    | ok rel =>
      rw [hv] at h2
      simp only at h2
      have hr : rel = r := (Except.ok.injEq _ _).mp h2
      subst hr
      exact relationshipStructApply_ok_data_none env m rel
        (assocGet_none_forall m "data" h1) hv
    | error es =>
      rw [hv] at h2
      simp at h2

/-- C5 witness: the concrete input with only an explicitly null data
member validates successfully, and the theorem yields the nil linkage for
it. -/
theorem C5_witness :
    (relationshipRuleSetApply (Env.mk (fun _ => none) 0) [("data", Json.null)]).2 =
      Except.ok (RelationshipV.mk [] (some LinkageV.nilLinkage) []) ∧
    (RelationshipV.mk [] (some LinkageV.nilLinkage) []).data = some LinkageV.nilLinkage := by
  refine ⟨rfl, ?_⟩
  exact (C5_relationship_null_data (Env.mk (fun _ => none) 0) [("data", Json.null)]
    (RelationshipV.mk [] (some LinkageV.nilLinkage) [])).1 rfl rfl

/-- C10: the relationship rule set mutates its input: on the concrete
input mapping data to null and meta to a non-object (which fails
validation), the data key present before the call is gone from the input
map after it. -/
theorem C10_input_mutated_on_error :
    assocGet [("data", Json.null), ("meta", Json.str "x")] "data" = some Json.null ∧
    assocGet (relationshipRuleSetApply (Env.mk (fun _ => none) 0)
      [("data", Json.null), ("meta", Json.str "x")]).1 "data" = none :=
  ⟨rfl, rfl⟩

/-- C3: every input the resource-object validator accepts comes out with
its type field equal to the configured type name (the validator stamps it
unconditionally after a successful validation). -/
theorem C3_type_stamped (env : Env) (cfg : DatumCfg)
    (attrsApply : Json → Except (List RuleErr) Json) (input : Json)
    (out : DatumValidated)
    (h : datumRuleSetApply env cfg attrsApply input = Except.ok out) :
    out.type = cfg.typeName := by
  unfold datumRuleSetApply at h
  cases hv : datumValidate env cfg attrsApply input with
  | ok d =>
    rw [hv] at h
    have := (Except.ok.injEq _ _).mp h
    rw [← this]
  | error es =>
    rw [hv] at h
    simp at h

/-- C3 witness: a concrete document that omits the type member validates
successfully and the validated output carries the configured type
name. -/
theorem C3_witness :
    datumRuleSetApply (Env.mk (fun _ => none) 0) (DatumCfg.mk "tests" [] false [])
      attrsAccept
      (Json.obj [("id", Json.str "abc"),
        ("attributes", Json.obj [("Name", Json.str "My Test")])]) =
      Except.ok (DatumValidated.mk "abc" "" "tests"
        (Json.obj [("Name", Json.str "My Test")]) [] [] [] [] []) ∧
    (DatumValidated.mk "abc" "" "tests"
      (Json.obj [("Name", Json.str "My Test")]) [] [] [] [] []).type = "tests" := by
  refine ⟨rfl, ?_⟩
  exact C3_type_stamped (Env.mk (fun _ => none) 0) (DatumCfg.mk "tests" [] false [])
    attrsAccept
    (Json.obj [("id", Json.str "abc"),
      ("attributes", Json.obj [("Name", Json.str "My Test")])]) _ rfl

/-- C7: on an index GET or HEAD request, page-size values parsing to an
integer between 1 and 100 are accepted; 0 and 101 are rejected with
bounds errors and a non-numeric value with a type error. -/
theorem C7_pageSize_bounds (s : String) (n : Int)
    (hp : parseIntString s = some n) (h1 : 1 ≤ n) (h2 : n ≤ 100) :
    pageSizeRuleSetApply (RequestContext.mk "GET" "") s = Except.ok [n] ∧
    pageSizeRuleSetApply (RequestContext.mk "HEAD" "") s = Except.ok [n] ∧
    pageSizeRuleSetApply (RequestContext.mk "GET" "") "0" =
      Except.error [RuleErr.mk ErrCode.bounds "value must be at least 1"] ∧
    pageSizeRuleSetApply (RequestContext.mk "GET" "") "101" =
      Except.error [RuleErr.mk ErrCode.bounds "value must be at most 100"] ∧
    pageSizeRuleSetApply (RequestContext.mk "GET" "") "abc" =
      Except.error [RuleErr.mk ErrCode.typeErr "value must be an integer"] := by
  have hred : pageSizeItemCheck s =
      (if n < 1 then Except.error (RuleErr.mk ErrCode.bounds "value must be at least 1")
       else if 100 < n then Except.error (RuleErr.mk ErrCode.bounds "value must be at most 100")
       else Except.ok n) := by
    unfold pageSizeItemCheck
    rw [hp]
  have hitem : pageSizeItemCheck s = Except.ok n := by
    rw [hred, if_neg (by omega), if_neg (by omega)]
  have keyG : pageSizeRuleSetApply (RequestContext.mk "GET" "") s =
      (match pageSizeItemCheck s with
       | Except.error e => Except.error ([e] ++ [])
       | Except.ok n => Except.ok [n]) := rfl
  have keyH : pageSizeRuleSetApply (RequestContext.mk "HEAD" "") s =
      (match pageSizeItemCheck s with
       | Except.error e => Except.error ([e] ++ [])
       | Except.ok n => Except.ok [n]) := rfl
  refine ⟨?_, ?_, rfl, rfl, rfl⟩
  · rw [keyG, hitem]
  · rw [keyH, hitem]

/-- C7 witness: the concrete value 50 parses and is accepted on an index
GET request. -/
theorem C7_witness :
    parseIntString "50" = some 50 ∧
    pageSizeRuleSetApply (RequestContext.mk "GET" "") "50" = Except.ok [50] := by
  refine ⟨rfl, ?_⟩
  exact (C7_pageSize_bounds "50" 50 rfl (by norm_num) (by norm_num)).1

/-- The extension-key tail match fails on all-lowercase characters (no
colon can occur). -/
theorem extKeyMatchesTail_all_lower (cs : List Char)
    (h : ∀ c ∈ cs, isLowerAZ c = true) : extKeyMatchesTail cs = false := by
  induction cs with
  | nil => rfl
  | cons c rest ih =>
    have hc : isLowerAZ c = true := h c (List.mem_cons_self c rest)
    have hcne : c ≠ ':' := by
      intro he
      rw [he] at hc
      exact absurd hc (by decide)
    have halnum : isAlnum c = true := by
      simp only [isLowerAZ, Bool.and_eq_true, decide_eq_true_eq] at hc
      simp only [isAlnum, Bool.or_eq_true, Bool.and_eq_true, decide_eq_true_eq]
      exact Or.inl (Or.inl hc)
    unfold extKeyMatchesTail
    rw [if_neg hcne, halnum]
    simpa using ih (fun c2 hm => h c2 (List.mem_cons_of_mem c hm))

/-- The extension-key match fails on all-lowercase names. -/
theorem extKeyMatches_all_lower (k : String)
    (h : ∀ c ∈ k.data, isLowerAZ c = true) : extKeyMatches k = false := by
  cases hd : k.data with
  | nil => unfold extKeyMatches; rw [hd]
  | cons c rest =>
    unfold extKeyMatches
    rw [hd]
    show (isAlnum c && extKeyMatchesTail rest) = false
    have := extKeyMatchesTail_all_lower rest
      (fun c2 hm => h c2 (hd ▸ List.mem_cons_of_mem c hm))
    rw [this]
    simp

/-- C8: for a query parameter whose name matches neither family pattern
and is not a registered standard lowercase name, the name is rejected as
reserved when every character is a lowercase letter, and accepted (no
error contributed) when some character falls outside a-z or the name
matches the extension shape. -/
theorem C8_query_key_legality (ctx : RequestContext) (k : String)
    (vs : List String)
    (hf : fieldKeyMatches k = false) (hfl : filterKeyMatches k = false)
    (hsort : k ≠ "sort") (hinc : k ≠ "include") :
    ((∀ c ∈ k.data, isLowerAZ c = true) →
      jsonAPIQueryKeyErrors ctx k vs =
        [RuleErr.mk ErrCode.unexpected
          "query parameter is reserved (all lowercase) for future JSON:API use"]) ∧
    ((∃ c ∈ k.data, isLowerAZ c = false) → extKeyMatches k = false →
      jsonAPIQueryKeyErrors ctx k vs = []) ∧
    (extKeyMatches k = true → jsonAPIQueryKeyErrors ctx k vs = []) := by
  refine ⟨?_, ?_, ?_⟩
  · intro hall
    have hext : extKeyMatches k = false := extKeyMatches_all_lower k hall
    have hany : k.data.any (fun c => !(isLowerAZ c)) = false := by
      rw [List.any_eq_false]
      intro c hm
      rw [hall c hm]
      simp
    have hleg : isLegalQueryParamKey k = false := by
      unfold isLegalQueryParamKey
      rw [hany]
      simp only [Bool.false_eq_true, if_false]
      unfold jsonapiStandardLowercaseParams
      simp [hsort, hinc]
    unfold jsonAPIQueryKeyErrors
    rw [hf, hfl, hext, hleg]
    simp
  · intro hex hext
    have hany : k.data.any (fun c => !(isLowerAZ c)) = true := by
      rw [List.any_eq_true]
      obtain ⟨c, hm, hc⟩ := hex
      exact ⟨c, hm, by rw [hc]; simp⟩
    have hleg : isLegalQueryParamKey k = true := by
      unfold isLegalQueryParamKey
      rw [hany]
      simp
    unfold jsonAPIQueryKeyErrors
    rw [hf, hfl, hext, hleg]
    simp
  · intro hext
    unfold jsonAPIQueryKeyErrors
    rw [hf, hfl, hext]
    simp

/-- C8 witness: the concrete unregistered names: unknownparam is rejected
and camelCase is accepted. -/
theorem C8_witness :
    jsonAPIQueryKeyErrors (RequestContext.mk "GET" "") "unknownparam" ["value"] =
      [RuleErr.mk ErrCode.unexpected
        "query parameter is reserved (all lowercase) for future JSON:API use"] ∧
    jsonAPIQueryKeyErrors (RequestContext.mk "GET" "") "camelCase" ["value"] = [] := by
  constructor
  · exact (C8_query_key_legality (RequestContext.mk "GET" "") "unknownparam" ["value"]
      (by decide) (by decide) (by decide) (by decide)).1 (by decide)
  · exact (C8_query_key_legality (RequestContext.mk "GET" "") "camelCase" ["value"]
      (by decide) (by decide) (by decide) (by decide)).2.1 (by decide) (by decide)

/-- C9: with a non-empty Content-Type header, validation fails when the
header does not parse as a media type, when the media type is not exactly
the JSON:API media type, or when any parameter other than ext or profile
is carried; it passes when the media type is exact, only ext and profile
parameters appear, and neither configured sub-validator rejects. -/
theorem C9_content_type (cfg : HeaderCfg)
    (parseMediaType : String → Option (String × List (String × String)))
    (headers : List (String × List String))
    (hraw : getHeader headers "Content-Type" ≠ "") :
    (parseMediaType (getHeader headers "Content-Type") = none →
      validateContentType cfg parseMediaType headers =
        some (RuleErr.mk ErrCode.encoding "invalid Content-Type")) ∧
    (∀ mt ps, parseMediaType (getHeader headers "Content-Type") = some (mt, ps) →
      mt ≠ MediaTypeJSONAPI →
      validateContentType cfg parseMediaType headers =
        some (RuleErr.mk ErrCode.pattern "wrong media type")) ∧
    (∀ mt ps p, parseMediaType (getHeader headers "Content-Type") = some (mt, ps) →
      p ∈ ps → p.1 ≠ "ext" → p.1 ≠ "profile" →
      (validateContentType cfg parseMediaType headers).isSome = true) ∧
    (∀ ps, parseMediaType (getHeader headers "Content-Type") =
        some (MediaTypeJSONAPI, ps) →
      (∀ p ∈ ps, p.1 = "ext" ∨ p.1 = "profile") →
      extParamCheck cfg ps = none → profileParamCheck cfg ps = none →
      validateContentType cfg parseMediaType headers = none) := by
  refine ⟨?_, ?_, ?_, ?_⟩
  · intro hparse
    simp only [validateContentType]
    rw [if_neg hraw, hparse]
  · intro mt ps hparse hmt
    have hstep : validateContentType cfg parseMediaType headers =
        contentTypeParsedCheck cfg mt ps := by
      simp only [validateContentType]
      rw [if_neg hraw, hparse]
    rw [hstep]
    unfold contentTypeParsedCheck
    rw [if_pos hmt]
  · intro mt ps p hparse hmem hext hprof
    have hstep : validateContentType cfg parseMediaType headers =
        contentTypeParsedCheck cfg mt ps := by
      simp only [validateContentType]
      rw [if_neg hraw, hparse]
    rw [hstep]
    unfold contentTypeParsedCheck
    by_cases hmt : mt = MediaTypeJSONAPI
    · rw [if_neg (by rw [hmt]; exact fun hh => hh rfl)]
      have hsome : (ps.find? (fun p2 => p2.1 != "ext" && p2.1 != "profile")).isSome := by
        rw [List.find?_isSome]
        refine ⟨p, hmem, ?_⟩
        simp [hext, hprof]
      cases hf2 : ps.find? (fun p2 => p2.1 != "ext" && p2.1 != "profile") with
      | some q => simp
      | none => rw [hf2] at hsome; simp at hsome
    · rw [if_pos hmt]
      simp
  · intro ps hparse hall hextc hprofc
    have hstep : validateContentType cfg parseMediaType headers =
        contentTypeParsedCheck cfg MediaTypeJSONAPI ps := by
      simp only [validateContentType]
      rw [if_neg hraw, hparse]
    rw [hstep]
    unfold contentTypeParsedCheck
    rw [if_neg (fun hh => hh rfl)]
    have hfind : ps.find? (fun p2 => p2.1 != "ext" && p2.1 != "profile") = none := by
      rw [List.find?_eq_none]
      intro x hx
      rcases hall x hx with h | h <;> simp [h]
    rw [hfind, hextc, hprofc]

/-- C9 witness: a Content-Type equal to the JSON:API media type carrying
only an ext parameter and no configured sub-validators passes. -/
theorem C9_witness :
    validateContentType (HeaderCfg.mk true none none)
      (fun s => if s = "application/vnd.api+json; ext=urn:x"
        then some (MediaTypeJSONAPI, [("ext", "urn:x")]) else none)
      [("Content-Type", ["application/vnd.api+json; ext=urn:x"])] = none := by
  exact (C9_content_type (HeaderCfg.mk true none none)
    (fun s => if s = "application/vnd.api+json; ext=urn:x"
      then some (MediaTypeJSONAPI, [("ext", "urn:x")]) else none)
    [("Content-Type", ["application/vnd.api+json; ext=urn:x"])]
    (by decide)).2.2.2 [("ext", "urn:x")] (by rfl) (by decide) rfl rfl

/-- Association lookup distributes over append, first list first. -/
theorem assocGet_append {α : Type} (l1 l2 : List (String × α)) (k : String) :
    assocGet (l1 ++ l2) k =
      (match assocGet l1 k with
       | some v => some v
       | none => assocGet l2 k) := by
  induction l1 with
  | nil => rfl
  | cons kv rest ih =>
    rcases kv with ⟨k0, v⟩
    by_cases he : k0 = k
    · simp [assocGet, he]
    · simp [assocGet, he, ih]

/-- A successful association lookup comes from a member of the list. -/
theorem assocGet_some_mem {α : Type} (ms : List (String × α)) (k : String)
    (v : α) (h : assocGet ms k = some v) : (k, v) ∈ ms := by
  induction ms with
  | nil => cases h
  | cons kv rest ih =>
    rcases kv with ⟨k0, v0⟩
    by_cases he : k0 = k
    · simp only [assocGet, if_pos he] at h
      have hv := Option.some.inj h
      subst he
      rw [← hv]
      exact List.mem_cons_self _ _
    · simp only [assocGet, if_neg he] at h
      exact List.mem_cons_of_mem _ (ih h)

/-- When no entry key matches, lookup returns none. -/
theorem assocGet_eq_none_of_any_false {α : Type} (ms : List (String × α))
    (k : String) (h : ms.any (fun kv => kv.1 = k) = false) :
    assocGet ms k = none := by
  induction ms with
  | nil => rfl
  | cons kv rest ih =>
    rcases kv with ⟨k0, v0⟩
    simp only [List.any_cons, Bool.or_eq_false_iff, decide_eq_false_iff_not] at h
    simp only [assocGet, if_neg h.1]
    exact ih (by simpa using h.2)

/-- Replacement map preserves a lookup of the inserted key once some entry
carries that key. -/
theorem assocGet_map_replace {α : Type} (ms : List (String × α)) (k : String)
    (v : α) (h : ms.any (fun kv => kv.1 = k) = true) :
    assocGet (ms.map (fun kv => if kv.1 = k then (k, v) else kv)) k = some v := by
  induction ms with
  | nil => cases h
  | cons kv rest ih =>
    rcases kv with ⟨k0, v0⟩
    by_cases he : k0 = k
    · subst he
      simp only [List.map_cons]
      simp [assocGet]
    · simp only [List.any_cons, Bool.or_eq_true, decide_eq_true_eq] at h
      rcases h with h | h
      · exact absurd h he
      · simp only [List.map_cons, if_neg he]
        simp only [assocGet, if_neg he]
        exact ih h

/-- Replacement map leaves lookups of other keys unchanged. -/
theorem assocGet_map_replace_other {α : Type} (ms : List (String × α))
    (k : String) (v : α) (k2 : String) (h : k2 ≠ k) :
    assocGet (ms.map (fun kv => if kv.1 = k then (k, v) else kv)) k2 =
      assocGet ms k2 := by
  induction ms with
  | nil => rfl
  | cons kv rest ih =>
    rcases kv with ⟨k0, v0⟩
    by_cases he : k0 = k
    · have hk2 : ¬(k = k2) := fun hh => h hh.symm
      have hk02 : ¬(k0 = k2) := by rw [he]; exact hk2
      simp only [List.map_cons, if_pos he]
      simp only [assocGet, if_neg hk2, if_neg hk02]
      exact ih
    · simp only [List.map_cons, if_neg he]
      simp only [assocGet]
      by_cases he2 : k0 = k2
      · simp [he2]
      · simp only [if_neg he2]
        exact ih

/-- Host map assignment makes the assigned key look up the assigned
value. -/
theorem assocGet_assocInsert_same {α : Type} (ms : List (String × α))
    (k : String) (v : α) : assocGet (assocInsert ms k v) k = some v := by
  unfold assocInsert
  split
  · exact assocGet_map_replace ms k v (by assumption)
  · rename_i hany
    rw [assocGet_append,
      assocGet_eq_none_of_any_false ms k (Bool.eq_false_iff.mpr hany)]
    simp [assocGet]

/-- Host map assignment leaves other keys unchanged. -/
theorem assocGet_assocInsert_other {α : Type} (ms : List (String × α))
    (k : String) (v : α) (k2 : String) (h : k2 ≠ k) :
    assocGet (assocInsert ms k v) k2 = assocGet ms k2 := by
  unfold assocInsert
  split
  · exact assocGet_map_replace_other ms k v k2 h
  · rw [assocGet_append]
    cases hg : assocGet ms k2 with
    | some v2 => rfl
    | none =>
      have hne : ¬(k = k2) := fun hh => h hh.symm
      simp [assocGet, hne]

/-- Folding host map assignments over entries whose keys all differ from
the looked-up key changes nothing for it. -/
theorem assocGet_foldInsert_not_mem {α : Type} (L : List (String × α))
    (r : List (String × α)) (k : String) (h : ∀ kv ∈ L, kv.1 ≠ k) :
    assocGet (L.foldl (fun acc kv => assocInsert acc kv.1 kv.2) r) k =
      assocGet r k := by
  induction L generalizing r with
  | nil => rfl
  | cons kv rest ih =>
    rw [List.foldl_cons,
      ih _ (fun kv2 hm => h kv2 (List.mem_cons_of_mem kv hm)),
      assocGet_assocInsert_other _ _ _ _
        (fun hh => h kv (List.mem_cons_self kv rest) hh.symm)]

/-- Folding host map assignments over a list with distinct keys makes each
entry look up its value. -/
theorem assocGet_foldInsert_mem {α : Type} (L : List (String × α))
    (r : List (String × α)) (k : String) (v : α)
    (hnd : (L.map Prod.fst).Nodup) (hm : (k, v) ∈ L) :
    assocGet (L.foldl (fun acc kv => assocInsert acc kv.1 kv.2) r) k = some v := by
  induction L generalizing r with
  | nil => cases hm
  | cons kv rest ih =>
    rw [List.map_cons, List.nodup_cons] at hnd
    rcases List.mem_cons.mp hm with heq | hmem
    · subst heq
      rw [List.foldl_cons]
      have hfresh : ∀ kv2 ∈ rest, kv2.1 ≠ k := by
        intro kv2 hm2 he
        apply hnd.1
        show k ∈ List.map Prod.fst rest
        rw [← he]
        exact List.mem_map_of_mem Prod.fst hm2
      rw [assocGet_foldInsert_not_mem rest _ k hfresh]
      exact assocGet_assocInsert_same r k v
    · rw [List.foldl_cons]
      exact ih _ hnd.2 hmem

/-- Two strings differ when one starts with the at sign and the other does
not. -/
theorem ne_of_startsWithAt_shape {k k2 : String} (h : startsWithAt k = true)
    (h2 : startsWithAt k2 = false) : k ≠ k2 := by
  intro he
  rw [he] at h
  rw [h] at h2
  exact Bool.noConfusion h2

/-- Two strings differ when one holds a colon past its start and the other
does not. -/
theorem ne_of_colonAfterStart_shape {k k2 : String}
    (h : colonAfterStart k = true) (h2 : colonAfterStart k2 = false) :
    k ≠ k2 := by
  intro he
  rw [he] at h
  rw [h] at h2
  exact Bool.noConfusion h2

/-- The links decode of an object of string links appends the
corresponding string-link entries. -/
theorem linksUnmarshalStep_strs (ls : List (String × String))
    (acc : List (String × LinkV)) :
    (ls.map (fun kv => (kv.1, Json.str kv.2))).foldl linksUnmarshalStep
      (Except.ok acc) =
      Except.ok (acc ++ ls.map (fun kv => (kv.1, LinkV.strLink kv.2))) := by
  induction ls generalizing acc with
  | nil => simp
  | cons kv rest ih =>
    rw [List.map_cons, List.foldl_cons]
    have hstep : linksUnmarshalStep (Except.ok acc) (kv.1, Json.str kv.2) =
        Except.ok (acc ++ [(kv.1, LinkV.strLink kv.2)]) := rfl
    rw [hstep, ih]
    simp

/-- Links.UnmarshalJSON decodes an object of string links to the string
link entries. -/
theorem linksUnmarshal_strs (ls : List (String × String)) :
    linksUnmarshal (renderSrcLinks ls) =
      Except.ok (ls.map (fun kv => (kv.1, LinkV.strLink kv.2))) := by
  have h0 : linksUnmarshal (renderSrcLinks ls) =
      (ls.map (fun kv => (kv.1, Json.str kv.2))).foldl linksUnmarshalStep
        (Except.ok []) := rfl
  rw [h0, linksUnmarshalStep_strs ls []]
  simp

/-- Serializing decoded string links reproduces the source links
object. -/
theorem renderLinks_strs (ls : List (String × String)) :
    renderLinks (ls.map (fun kv => (kv.1, LinkV.strLink kv.2))) =
      renderSrcLinks ls := by
  unfold renderLinks renderSrcLinks
  rw [List.map_map]
  rfl

/-- The recorded attribute key set keeps every attribute under the sparse
filter. -/
theorem filter_contains_keys (attrs : List (String × Json)) :
    attrs.filter (fun kv => (attrs.map Prod.fst).contains kv.1) = attrs := by
  apply List.filter_eq_self.mpr
  intro kv hm
  have hmem : kv.1 ∈ attrs.map Prod.fst := List.mem_map_of_mem Prod.fst hm
  exact List.elem_eq_true_of_mem hmem

/-- The member loop of the Datum decode distributes over list append. -/
theorem datumUnmarshalGo_append (l1 l2 : List (String × Json))
    (st : DatumV × List String) :
    datumUnmarshalGo st (l1 ++ l2) =
      (match datumUnmarshalGo st l1 with
       | Except.ok st2 => datumUnmarshalGo st2 l2
       | Except.error e => Except.error e) := by
  induction l1 generalizing st with
  | nil => rfl
  | cons kv rest ih =>
    cases hs : datumUnmarshalStep st kv with
    | ok st2 => simp [datumUnmarshalGo, hs, ih]
    | error e => simp [datumUnmarshalGo, hs]

/-- The member loop of the Datum decode composes through a successful
first segment. -/
theorem datumUnmarshalGo_append_ok (l1 l2 : List (String × Json))
    (st st2 : DatumV × List String)
    (h : datumUnmarshalGo st l1 = Except.ok st2) :
    datumUnmarshalGo st (l1 ++ l2) = datumUnmarshalGo st2 l2 := by
  rw [datumUnmarshalGo_append, h]

/-- A member whose name starts with the at sign is diverted into the
at-member bucket. -/
theorem datumUnmarshalStep_at (st : DatumV × List String) (kv : String × Json)
    (h : startsWithAt kv.1 = true) :
    datumUnmarshalStep st kv =
      Except.ok
        ({ st.1 with atMembers := assocInsert st.1.atMembers kv.1 kv.2 }, st.2) := by
  have hne : ∀ k2 : String, startsWithAt k2 = false → kv.1 ≠ k2 :=
    fun k2 hk2 => ne_of_startsWithAt_shape h hk2
  unfold datumUnmarshalStep
  rw [if_neg (hne "id" rfl), if_neg (hne "lid" rfl), if_neg (hne "type" rfl),
    if_neg (hne "attributes" rfl), if_neg (hne "links" rfl),
    if_neg (hne "relationships" rfl), if_neg (hne "meta" rfl), h]
  rfl

/-- A member whose name holds a colon past its start (and no leading at
sign) is diverted into the extension-member bucket. -/
theorem datumUnmarshalStep_ext (st : DatumV × List String) (kv : String × Json)
    (hc : colonAfterStart kv.1 = true) (ha : startsWithAt kv.1 = false) :
    datumUnmarshalStep st kv =
      Except.ok
        ({ st.1 with
            extensionMembers := assocInsert st.1.extensionMembers kv.1 kv.2 },
          st.2) := by
  have hne : ∀ k2 : String, colonAfterStart k2 = false → kv.1 ≠ k2 :=
    fun k2 hk2 => ne_of_colonAfterStart_shape hc hk2
  unfold datumUnmarshalStep
  rw [if_neg (hne "id" rfl), if_neg (hne "lid" rfl), if_neg (hne "type" rfl),
    if_neg (hne "attributes" rfl), if_neg (hne "links" rfl),
    if_neg (hne "relationships" rfl), if_neg (hne "meta" rfl), ha, hc]
  rfl

/-- A run of at-members only accumulates the at-member bucket. -/
theorem datumGo_at (L : List (String × Json)) (st : DatumV × List String)
    (h : ∀ kv ∈ L, startsWithAt kv.1 = true) :
    datumUnmarshalGo st L =
      Except.ok
        ({ st.1 with
            atMembers :=
              L.foldl (fun acc kv => assocInsert acc kv.1 kv.2) st.1.atMembers },
          st.2) := by
  induction L generalizing st with
  | nil => rfl
  | cons kv rest ih =>
    have hstep := datumUnmarshalStep_at st kv (h kv (List.mem_cons_self kv rest))
    simp only [datumUnmarshalGo, hstep]
    rw [ih _ (fun kv2 hm => h kv2 (List.mem_cons_of_mem kv hm))]
    rfl

/-- A run of extension members only accumulates the extension bucket. -/
theorem datumGo_ext (L : List (String × Json)) (st : DatumV × List String)
    (h : ∀ kv ∈ L, colonAfterStart kv.1 = true ∧ startsWithAt kv.1 = false) :
    datumUnmarshalGo st L =
      Except.ok
        ({ st.1 with
            extensionMembers :=
              L.foldl (fun acc kv => assocInsert acc kv.1 kv.2)
                st.1.extensionMembers },
          st.2) := by
  induction L generalizing st with
  | nil => rfl
  | cons kv rest ih =>
    have hmem := h kv (List.mem_cons_self kv rest)
    have hstep := datumUnmarshalStep_ext st kv hmem.1 hmem.2
    simp only [datumUnmarshalGo, hstep]
    rw [ih _ (fun kv2 hm => h kv2 (List.mem_cons_of_mem kv hm))]
    rfl

/-- C4 counterexample: a resource object holding a relationships member
(a links-only relationship) loses it across decode then encode, because
decode records the attribute keys as the sparse field list and encode
then filters relationships by it; the decoded-then-encoded document has
no relationships member while the source does. -/
theorem C4_counterexample :
    objGet (Json.obj [("id", Json.str "1"), ("type", Json.str "t"),
        ("attributes", Json.obj [("a", Json.str "v")]),
        ("relationships",
          Json.obj [("r", Json.obj [("meta", Json.obj [("k", Json.num 1)])])])])
      "relationships" =
      some (Json.obj [("r", Json.obj [("meta", Json.obj [("k", Json.num 1)])])]) ∧
    (datumUnmarshalJSON (Json.obj [("id", Json.str "1"), ("type", Json.str "t"),
        ("attributes", Json.obj [("a", Json.str "v")]),
        ("relationships",
          Json.obj [("r", Json.obj [("meta", Json.obj [("k", Json.num 1)])])])])).map
      (fun d => objGet (datumMarshalJSON d) "relationships") = Except.ok none :=
  ⟨rfl, rfl⟩

/-- Host map assignment of a fresh key appends it. -/
theorem assocInsert_fresh {α : Type} (r : List (String × α)) (k : String)
    (v : α) (h : ∀ kv ∈ r, kv.1 ≠ k) : assocInsert r k v = r ++ [(k, v)] := by
  unfold assocInsert
  rw [if_neg]
  simp only [List.any_eq_true, decide_eq_true_eq, not_exists, not_and]
  intro kv hm
  exact h kv hm

/-- Folding host map assignments of entries with distinct keys, all fresh
for the base map, appends them in order. -/
theorem foldInsert_fresh_append {α : Type} (L : List (String × α))
    (r : List (String × α))
    (hfresh : ∀ kv ∈ L, ∀ kv2 ∈ r, kv2.1 ≠ kv.1)
    (hnd : (L.map Prod.fst).Nodup) :
    L.foldl (fun acc kv => assocInsert acc kv.1 kv.2) r = r ++ L := by
  induction L generalizing r with
  | nil => simp
  | cons kv rest ih =>
    rw [List.map_cons, List.nodup_cons] at hnd
    rw [List.foldl_cons,
      assocInsert_fresh r kv.1 kv.2 (fun kv2 hm => hfresh kv (List.mem_cons_self kv rest) kv2 hm)]
    rw [ih (r ++ [kv])]
    · simp
    · intro kv2 hm2 kv3 hm3
      rcases List.mem_append.mp hm3 with hm3 | hm3
      · exact hfresh kv2 (List.mem_cons_of_mem kv hm2) kv3 hm3
      · rcases List.mem_singleton.mp hm3 with rfl
        intro he
        exact hnd.1 (by rw [he]; exact List.mem_map_of_mem Prod.fst hm2)
    · exact hnd.2

/-- Building a host map from entries with distinct keys reproduces the
entry list. -/
theorem foldInsert_nil_eq_self {α : Type} (L : List (String × α))
    (hnd : (L.map Prod.fst).Nodup) :
    L.foldl (fun acc kv => assocInsert acc kv.1 kv.2) [] = L := by
  rw [foldInsert_fresh_append L [] (fun kv _ kv2 hm2 => absurd hm2 (List.not_mem_nil kv2)) hnd]
  simp

/-- C4 (amended): decode then encode reproduces every member of the
source resource object — id, type, lid, attributes (arbitrary object),
string links, meta, at-members and extension members with their name
shapes and with non-empty optional members — except that a relationships
member survives only when its names sit among the recorded attribute keys
(here: documents without relationships). -/
theorem C4_amended_roundtrip (s : DatumSrc)
    (hlid : s.lid ≠ "") (hattrs : s.attrs ≠ []) (hlinks : s.linkPairs ≠ [])
    (hmeta : s.meta ≠ [])
    (hat : ∀ kv ∈ s.atMems, startsWithAt kv.1 = true)
    (hatnd : (s.atMems.map Prod.fst).Nodup)
    (hext : ∀ kv ∈ s.extMems,
      colonAfterStart kv.1 = true ∧ startsWithAt kv.1 = false)
    (hextnd : (s.extMems.map Prod.fst).Nodup) :
    ∃ d, datumUnmarshalJSON (renderSrc s) = Except.ok d ∧
      ∀ k v, assocGet (objMembersOf (renderSrc s)) k = some v →
        assocGet (objMembersOf (datumMarshalJSON d)) k = some v := by
  have e4 : datumUnmarshalGo
      (DatumV.mk "" "" "" none [] [] [] [] [] none, ([] : List String))
      [("id", Json.str s.id), ("type", Json.str s.type),
        ("lid", Json.str s.lid), ("attributes", Json.obj s.attrs),
        ("links", renderSrcLinks s.linkPairs), ("meta", Json.obj s.meta)] =
      datumUnmarshalGo
        (DatumV.mk s.id s.lid s.type (some s.attrs) [] [] [] [] [] none,
          s.attrs.map Prod.fst)
        [("links", renderSrcLinks s.linkPairs), ("meta", Json.obj s.meta)] := rfl
  have hstep5 : datumUnmarshalStep
      (DatumV.mk s.id s.lid s.type (some s.attrs) [] [] [] [] [] none,
        s.attrs.map Prod.fst)
      ("links", renderSrcLinks s.linkPairs) =
      Except.ok
        (DatumV.mk s.id s.lid s.type (some s.attrs)
          (s.linkPairs.map (fun kv => (kv.1, LinkV.strLink kv.2)))
          [] [] [] [] none,
          s.attrs.map Prod.fst) := by
    have h0 : datumUnmarshalStep
        (DatumV.mk s.id s.lid s.type (some s.attrs) [] [] [] [] [] none,
          s.attrs.map Prod.fst)
        ("links", renderSrcLinks s.linkPairs) =
        (match linksUnmarshal (renderSrcLinks s.linkPairs) with
         | Except.ok ls =>
            Except.ok
              (DatumV.mk s.id s.lid s.type (some s.attrs) ls [] [] [] [] none,
                s.attrs.map Prod.fst)
         | Except.error e => Except.error e) := rfl
    rw [h0, linksUnmarshal_strs]
  have e5 : datumUnmarshalGo
      (DatumV.mk s.id s.lid s.type (some s.attrs) [] [] [] [] [] none,
        s.attrs.map Prod.fst)
      [("links", renderSrcLinks s.linkPairs), ("meta", Json.obj s.meta)] =
      datumUnmarshalGo
        (DatumV.mk s.id s.lid s.type (some s.attrs)
          (s.linkPairs.map (fun kv => (kv.1, LinkV.strLink kv.2)))
          [] [] [] [] none,
          s.attrs.map Prod.fst)
        [("meta", Json.obj s.meta)] := by
    have h1 : datumUnmarshalGo
        (DatumV.mk s.id s.lid s.type (some s.attrs) [] [] [] [] [] none,
          s.attrs.map Prod.fst)
        [("links", renderSrcLinks s.linkPairs), ("meta", Json.obj s.meta)] =
        (match datumUnmarshalStep
            (DatumV.mk s.id s.lid s.type (some s.attrs) [] [] [] [] [] none,
              s.attrs.map Prod.fst)
            ("links", renderSrcLinks s.linkPairs) with
         | Except.ok st2 => datumUnmarshalGo st2 [("meta", Json.obj s.meta)]
         | Except.error e => Except.error e) := rfl
    rw [h1, hstep5]
  have e6 : datumUnmarshalGo
      (DatumV.mk s.id s.lid s.type (some s.attrs)
        (s.linkPairs.map (fun kv => (kv.1, LinkV.strLink kv.2)))
        [] [] [] [] none,
        s.attrs.map Prod.fst)
      [("meta", Json.obj s.meta)] =
      Except.ok
        (DatumV.mk s.id s.lid s.type (some s.attrs)
          (s.linkPairs.map (fun kv => (kv.1, LinkV.strLink kv.2)))
          [] s.meta [] [] none,
          s.attrs.map Prod.fst) := rfl
  have hsix := e4.trans (e5.trans e6)
  have e8 := (datumUnmarshalGo_append_ok
      [("id", Json.str s.id), ("type", Json.str s.type),
        ("lid", Json.str s.lid), ("attributes", Json.obj s.attrs),
        ("links", renderSrcLinks s.linkPairs), ("meta", Json.obj s.meta)]
      (s.atMems ++ s.extMems) _ _ hsix).trans
    ((datumUnmarshalGo_append_ok s.atMems s.extMems _ _
        (datumGo_at s.atMems _ hat)).trans
      (datumGo_ext s.extMems _ hext))
  have hdec : datumUnmarshalJSON (renderSrc s) =
      Except.ok
        (DatumV.mk s.id s.lid s.type (some s.attrs)
          (s.linkPairs.map (fun kv => (kv.1, LinkV.strLink kv.2)))
          [] s.meta
          (s.extMems.foldl (fun acc kv => assocInsert acc kv.1 kv.2) [])
          (s.atMems.foldl (fun acc kv => assocInsert acc kv.1 kv.2) [])
          (some (s.attrs.map Prod.fst))) := by
    have h0 : datumUnmarshalJSON (renderSrc s) =
        (match datumUnmarshalGo
            (DatumV.mk "" "" "" none [] [] [] [] [] none, ([] : List String))
            ([("id", Json.str s.id), ("type", Json.str s.type),
              ("lid", Json.str s.lid), ("attributes", Json.obj s.attrs),
              ("links", renderSrcLinks s.linkPairs), ("meta", Json.obj s.meta)]
              ++ (s.atMems ++ s.extMems)) with
         | Except.ok st => Except.ok { st.1 with fields := some st.2 }
         | Except.error e => Except.error e) := rfl
    rw [h0, e8]
  refine ⟨_, hdec, ?_⟩
  have c1 : (s.lid != "") = true := by simpa using hlid
  have c2 : ((s.linkPairs.map (fun kv => (kv.1, LinkV.strLink kv.2))).length != 0)
      = true := by simpa using hlinks
  have c3 : (s.meta.length != 0) = true := by simpa using hmeta
  have c4 : (s.attrs.length != 0) = true := by simpa using hattrs
  have hmar : objMembersOf (datumMarshalJSON
      (DatumV.mk s.id s.lid s.type (some s.attrs)
        (s.linkPairs.map (fun kv => (kv.1, LinkV.strLink kv.2)))
        [] s.meta
        (s.extMems.foldl (fun acc kv => assocInsert acc kv.1 kv.2) [])
        (s.atMems.foldl (fun acc kv => assocInsert acc kv.1 kv.2) [])
        (some (s.attrs.map Prod.fst)))) =
      s.atMems.foldl (fun acc kv => assocInsert acc kv.1 kv.2)
        (s.extMems.foldl (fun acc kv => assocInsert acc kv.1 kv.2)
          (assocInsert (assocInsert (assocInsert (assocInsert (assocInsert
            (assocInsert [] "id" (Json.str s.id))
            "type" (Json.str s.type))
            "lid" (Json.str s.lid))
            "links" (renderSrcLinks s.linkPairs))
            "meta" (Json.obj s.meta))
            "attributes" (Json.obj s.attrs))) := by
    have hbat : s.atMems.foldl (fun acc kv => assocInsert acc kv.1 kv.2) [] =
        s.atMems := foldInsert_nil_eq_self s.atMems hatnd
    have hbext : s.extMems.foldl (fun acc kv => assocInsert acc kv.1 kv.2) [] =
        s.extMems := foldInsert_nil_eq_self s.extMems hextnd
    simp only [datumMarshalJSON, objMembersOf, Option.getD_some,
      filter_contains_keys, renderLinks_strs, c1, c2, c3, c4, if_true,
      List.length_nil, bne_self_eq_false, Bool.false_eq_true, if_false,
      hbat, hbext]
  intro k v hkv
  rw [hmar]
  have hsrcm : objMembersOf (renderSrc s) =
      [("id", Json.str s.id), ("type", Json.str s.type),
        ("lid", Json.str s.lid), ("attributes", Json.obj s.attrs),
        ("links", renderSrcLinks s.linkPairs), ("meta", Json.obj s.meta)]
        ++ (s.atMems ++ s.extMems) := rfl
  rw [hsrcm, assocGet_append] at hkv
  have hatne : ∀ k2 : String, startsWithAt k2 = false →
      ∀ kv2 ∈ s.atMems, kv2.1 ≠ k2 :=
    fun k2 hk2 kv2 hm => ne_of_startsWithAt_shape (hat kv2 hm) hk2
  have hextne : ∀ k2 : String, colonAfterStart k2 = false →
      ∀ kv2 ∈ s.extMems, kv2.1 ≠ k2 :=
    fun k2 hk2 kv2 hm => ne_of_colonAfterStart_shape (hext kv2 hm).1 hk2
  by_cases h1 : k = "id"
  · subst h1
    have hkv2 : some (Json.str s.id) = some v := hkv
    rw [← Option.some.inj hkv2]
    rw [assocGet_foldInsert_not_mem s.atMems _ "id" (hatne "id" rfl),
      assocGet_foldInsert_not_mem s.extMems _ "id" (hextne "id" rfl),
      assocGet_assocInsert_other _ "attributes" _ "id" (by decide),
      assocGet_assocInsert_other _ "meta" _ "id" (by decide),
      assocGet_assocInsert_other _ "links" _ "id" (by decide),
      assocGet_assocInsert_other _ "lid" _ "id" (by decide),
      assocGet_assocInsert_other _ "type" _ "id" (by decide)]
    exact assocGet_assocInsert_same _ _ _
  by_cases h2 : k = "type"
  · subst h2
    have hkv2 : some (Json.str s.type) = some v := hkv
    rw [← Option.some.inj hkv2]
    rw [assocGet_foldInsert_not_mem s.atMems _ "type" (hatne "type" rfl),
      assocGet_foldInsert_not_mem s.extMems _ "type" (hextne "type" rfl),
      assocGet_assocInsert_other _ "attributes" _ "type" (by decide),
      assocGet_assocInsert_other _ "meta" _ "type" (by decide),
      assocGet_assocInsert_other _ "links" _ "type" (by decide),
      assocGet_assocInsert_other _ "lid" _ "type" (by decide)]
    exact assocGet_assocInsert_same _ _ _
  by_cases h3 : k = "lid"
  · subst h3
    have hkv2 : some (Json.str s.lid) = some v := hkv
    rw [← Option.some.inj hkv2]
    rw [assocGet_foldInsert_not_mem s.atMems _ "lid" (hatne "lid" rfl),
      assocGet_foldInsert_not_mem s.extMems _ "lid" (hextne "lid" rfl),
      assocGet_assocInsert_other _ "attributes" _ "lid" (by decide),
      assocGet_assocInsert_other _ "meta" _ "lid" (by decide),
      assocGet_assocInsert_other _ "links" _ "lid" (by decide)]
    exact assocGet_assocInsert_same _ _ _
  by_cases h4 : k = "attributes"
  · subst h4
    have hkv2 : some (Json.obj s.attrs) = some v := hkv
    rw [← Option.some.inj hkv2]
    rw [assocGet_foldInsert_not_mem s.atMems _ "attributes"
        (hatne "attributes" rfl),
      assocGet_foldInsert_not_mem s.extMems _ "attributes"
        (hextne "attributes" rfl)]
    exact assocGet_assocInsert_same _ _ _
  by_cases h5 : k = "links"
  · subst h5
    have hkv2 : some (renderSrcLinks s.linkPairs) = some v := hkv
    rw [← Option.some.inj hkv2]
    rw [assocGet_foldInsert_not_mem s.atMems _ "links" (hatne "links" rfl),
      assocGet_foldInsert_not_mem s.extMems _ "links" (hextne "links" rfl),
      assocGet_assocInsert_other _ "attributes" _ "links" (by decide),
      assocGet_assocInsert_other _ "meta" _ "links" (by decide)]
    exact assocGet_assocInsert_same _ _ _
  by_cases h6 : k = "meta"
  · subst h6
    have hkv2 : some (Json.obj s.meta) = some v := hkv
    rw [← Option.some.inj hkv2]
    rw [assocGet_foldInsert_not_mem s.atMems _ "meta" (hatne "meta" rfl),
      assocGet_foldInsert_not_mem s.extMems _ "meta" (hextne "meta" rfl),
      assocGet_assocInsert_other _ "attributes" _ "meta" (by decide)]
    exact assocGet_assocInsert_same _ _ _
  · have hsix0 : assocGet
        [("id", Json.str s.id), ("type", Json.str s.type),
          ("lid", Json.str s.lid), ("attributes", Json.obj s.attrs),
          ("links", renderSrcLinks s.linkPairs), ("meta", Json.obj s.meta)] k =
        none := by
      show (if "id" = k then some (Json.str s.id)
        else if "type" = k then some (Json.str s.type)
        else if "lid" = k then some (Json.str s.lid)
        else if "attributes" = k then some (Json.obj s.attrs)
        else if "links" = k then some (renderSrcLinks s.linkPairs)
        else if "meta" = k then some (Json.obj s.meta)
        else none) = none
      rw [if_neg (fun he => h1 he.symm), if_neg (fun he => h2 he.symm),
        if_neg (fun he => h3 he.symm), if_neg (fun he => h4 he.symm),
        if_neg (fun he => h5 he.symm), if_neg (fun he => h6 he.symm)]
    rw [hsix0] at hkv
    have hkv2 : assocGet (s.atMems ++ s.extMems) k = some v := hkv
    rw [assocGet_append] at hkv2
    cases hat1 : assocGet s.atMems k with
    | some v1 =>
      rw [hat1] at hkv2
      have hv : v1 = v := Option.some.inj hkv2
      rw [← hv]
      exact assocGet_foldInsert_mem s.atMems _ k v1 hatnd
        (assocGet_some_mem s.atMems k v1 hat1)
    | none =>
      rw [hat1] at hkv2
      have hkv3 : assocGet s.extMems k = some v := hkv2
      rw [assocGet_foldInsert_not_mem s.atMems _ k
        (assocGet_none_forall s.atMems k hat1)]
      exact assocGet_foldInsert_mem s.extMems _ k v hextnd
        (assocGet_some_mem s.extMems k v hkv3)

/-- C4 witness: a concrete resource object with one attribute, one string
link, meta, an at-member and an extension member round-trips with every
member reproduced. -/
theorem C4_witness :
    ∃ d, datumUnmarshalJSON (renderSrc (DatumSrc.mk "1" "articles" "L1"
        [("title", Json.str "Hello")] [("self", "http://x")]
        [("v", Json.num 1)] [("@a", Json.bool true)]
        [("ns:x", Json.str "y")])) = Except.ok d ∧
      ∀ k v, assocGet (objMembersOf (renderSrc (DatumSrc.mk "1" "articles" "L1"
          [("title", Json.str "Hello")] [("self", "http://x")]
          [("v", Json.num 1)] [("@a", Json.bool true)]
          [("ns:x", Json.str "y")]))) k = some v →
        assocGet (objMembersOf (datumMarshalJSON d)) k = some v := by
  exact C4_amended_roundtrip
    (DatumSrc.mk "1" "articles" "L1" [("title", Json.str "Hello")]
      [("self", "http://x")] [("v", Json.num 1)] [("@a", Json.bool true)]
      [("ns:x", Json.str "y")])
    (by decide) (by simp) (by simp) (by simp)
    (by simp [startsWithAt]) (by decide)
    (by simp [colonAfterStart, startsWithAt]) (by decide)

end JsonApiSpec
